import Mathlib

/-!
Verification development for the `zap_logger` repository: a shallow
embedding of the sink fan-out and redaction pipeline (src/logger.go,
src/core.go, src/redaction.go, src/handlers.go) together with theorems
settling the specified properties.

Modelling conventions:
* Go's `zapcore.Level` is an ordered enumeration; the levels used by the
  repository are Debug(-1), Info(0), Warn(1), Error(2), Fatal(5), compared
  with `lvl >= threshold` on the numeric codes.
* A compiled regular expression together with `ReplaceAllString` is
  modelled for literal (metacharacter-free) patterns as a leftmost,
  non-overlapping, global find-and-replace over the character list.
* Go maps are modelled as association lists; Go's map iteration order is
  unspecified, the embedding fixes one order (the list order).
* Pointer-shared mutable state (the `zap.AtomicLevel` cell and the core
  list inside `multiCoreSyncWrapper`) is modelled by an explicit `Shared`
  state record threaded through the operations.  A `redactingCore` holds a
  live pointer to the Logger that installed the handler; that pointer is
  modelled as a numeric reference `creator`, and the dereference performed
  at `Check` time is modelled by an environment `rulesOf : Nat → List
  redaction` giving each referenced logger's rule list at the moment of
  the call.
-/

namespace ZapLogger

/-- The severity levels used by the repository (zapcore.Level). DPanic and
Panic exist in zapcore but are never used by this code base. -/
inductive LogLevel where
  | debug
  | info
  | warn
  | error
  | fatal
  deriving DecidableEq, Repr

/-- Numeric codes of zapcore.Level: Debug=-1, Info=0, Warn=1, Error=2, Fatal=5. -/
def LogLevel.toInt : LogLevel → Int
  | .debug => -1
  | .info => 0
  | .warn => 1
  | .error => 2
  | .fatal => 5

/-- The comparison `lvl >= level` used by every level enabler in
src/handlers.go (`zap.LevelEnablerFunc(func(lvl zapcore.Level) bool { return lvl >= level })`). -/
def levelGE (lvl threshold : LogLevel) : Bool :=
  threshold.toInt ≤ lvl.toInt

/-- The value carried by a `zap.Field`, restricted to the kinds the
repository constructs via `zap.String` and `zap.Any`. The field-redaction
code in src/redaction.go only distinguishes `zapcore.StringType` from
everything else. -/
inductive FieldValue where
  | str (s : String)
  | int (n : Int)
  | bool (b : Bool)
  | err (message : String)
  | other
  deriving DecidableEq, Repr

/-- A `zap.Field`: a key plus a typed value. -/
structure Field where
  key : String
  value : FieldValue
  deriving DecidableEq, Repr

/-- `zap.String(key, s)` from the Go API. -/
def zapString (key s : String) : Field :=
  ⟨key, .str s⟩

/-- `zap.Any(key, v)` from the Go API, with the dynamic value already
classified as a `FieldValue`. -/
def zapAny (key : String) (v : FieldValue) : Field :=
  ⟨key, v⟩

/-- A redaction rule from src/redaction.go: `type redaction struct { regex
*regexp.Regexp; replacement string }`.  The compiled regex is modelled by
its literal pattern text. -/
structure redaction where
  pattern : String
  replacement : String
  deriving DecidableEq, Repr

/-- Leftmost non-overlapping global replacement over a character list,
fuel-indexed so that it is structurally recursive (each step consumes at
least one input character, so fuel equal to the input length suffices).
This models Go's `regexp.ReplaceAllString` for a literal pattern. -/
def replaceChars (pat rep : List Char) : Nat → List Char → List Char
  | 0, s => s
  | _ + 1, [] => []
  | fuel + 1, c :: rest =>
    if pat ≠ [] ∧ pat.isPrefixOf (c :: rest) then
      rep ++ replaceChars pat rep fuel (List.drop (pat.length - 1) rest)
    else
      c :: replaceChars pat rep fuel rest

/-- `r.regex.ReplaceAllString(s, r.replacement)` from src/redaction.go,
for a literal pattern. -/
def applyRedaction (r : redaction) (s : String) : String :=
  String.mk (replaceChars r.pattern.toList r.replacement.toList s.toList.length s.toList)

/-- The loop body of `Logger.redactMessage` (src/redaction.go lines
15-25): `redacted := message; for _, r := range l.redactions { redacted =
r.regex.ReplaceAllString(redacted, r.replacement) }`. -/
def redactLoop : List redaction → String → String
  | [], acc => acc
  | r :: rest, acc => redactLoop rest (applyRedaction r acc)

/-- The Logger struct from src/logger.go, restricted to the fields the
verified properties depend on.  The shared mutable `atomicLevel` and
`coreWrapper` pointers are modelled separately by `Shared`; the embedded
`*zap.Logger` carries no repository state of its own. -/
structure Logger where
  name : String
  context : List Field
  redactions : List redaction
  deriving DecidableEq, Repr

/-- `Logger.redactMessage` from src/redaction.go: applies all registered
redactions to a message, sequentially, in registration order. -/
def Logger.redactMessage (l : Logger) (message : String) : String :=
  redactLoop l.redactions message

/-- `Logger.AddRedaction` from src/redaction.go lines 44-53: appends a new
rule to the receiver's `redactions` slice. -/
def Logger.addRedaction (l : Logger) (pattern replacement : String) : Logger :=
  { l with redactions := l.redactions ++ [⟨pattern, replacement⟩] }

/-- `Logger.WithContext` from src/logger.go lines 211-232: copies the
receiver's context and redactions slices (`append([]zap.Field{},
l.context...)` allocates a fresh backing array) and appends the supplied
fields. -/
def Logger.withContext (l : Logger) (fields : List (String × FieldValue)) : Logger :=
  { l with context := l.context ++ fields.map fun p => zapAny p.1 p.2 }

/-- The rewrite loop inside `Logger.Child` (src/logger.go lines 198-204):
scan the copied context for the first field whose key is "logger" and
replace it with the child's full name, then stop. -/
def replaceLoggerField : List Field → String → List Field
  | [], _ => []
  | f :: rest, childName =>
    if f.key = "logger" then zapString "logger" childName :: rest
    else f :: replaceLoggerField rest childName

/-- `Logger.Child` from src/logger.go lines 177-209: builds the
hierarchical name, copies the context and redactions slices into fresh
backing arrays, and rewrites the "logger" field to the child name.  The
`atomicLevel` and `coreWrapper` references are shared (modelled by the
separate `Shared` state). -/
def Logger.child (l : Logger) (name : String) : Logger :=
  let childName := if l.name ≠ "" then l.name ++ "." ++ name else name
  { name := childName
    context := replaceLoggerField l.context childName
    redactions := l.redactions }

/-- A member of the `multiCoreSyncWrapper.cores` slice.  The repository
registers exactly two shapes of core:
* `sink`: a `redactingCore` (src/handlers.go) wrapping a real
  `zapcore.NewCore` whose enabler accepts `lvl >= threshold`; `creator` is
  the reference held in the decorator's `logger *Logger` field, and
  `sinkId` identifies the wrapped destination core.
* `fieldRedactor`: the `fieldRedactingCore` built by
  `createFieldRedactorCore` (src/redaction.go lines 73-86), which embeds
  `zapcore.NewNopCore()`. -/
inductive Core where
  | sink (threshold : LogLevel) (creator : Nat) (sinkId : Nat)
  | fieldRedactor (redactKeys : List String)
  deriving DecidableEq, Repr

/-- `core.Enabled(lvl)` for each registered core.  A `sink` exposes the
wrapped ioCore's enabler (`redactingCore` does not override `Enabled`); a
`fieldRedactor` exposes `NopCore.Enabled`, which is always false. -/
def Core.enabled : Core → LogLevel → Bool
  | .sink threshold _ _, lvl => levelGE lvl threshold
  | .fieldRedactor _, _ => false

/-- The pointer-shared state of one logger lineage: the `zap.AtomicLevel`
cell created in `NewLogger` and the `multiCoreSyncWrapper`'s core list.
Every Logger derived by `Child`/`WithContext` references the same state. -/
structure Shared where
  atomicLevel : LogLevel
  cores : List Core
  deriving DecidableEq, Repr

/-- `NewLogger` from src/logger.go lines 21-40: the logger starts with
context `[zap.String("logger", name)]`, no redactions, an atomic level
cell holding `level`, and an empty core list. -/
def newLogger (name : String) (level : LogLevel) : Logger × Shared :=
  (⟨name, [zapString "logger" name], []⟩, ⟨level, []⟩)

/-- `Logger.SetLevel` from src/logger.go lines 172-175: stores `level`
into the shared `zap.AtomicLevel` cell.  Nothing else in the repository
ever reads this cell. -/
def setLevel (s : Shared) (level : LogLevel) : Shared :=
  { s with atomicLevel := level }

/-- `multiCoreSyncWrapper.AddCore` from src/core.go: appends under the
write lock. -/
def addCore (s : Shared) (c : Core) : Shared :=
  { s with cores := s.cores ++ [c] }

/-- `Logger.AddConsoleHandler` from src/handlers.go: builds an ioCore over
stdout with enabler `lvl >= level`, wraps it in a `redactingCore` holding
a live pointer to the installing logger (`creator`), and appends it.  The
`development` flag only selects the encoder layout.  The fresh ioCore is
identified by the current length of the core list. -/
def addConsoleHandler (s : Shared) (creator : Nat) (level : LogLevel) (_development : Bool) :
    Shared :=
  addCore s (.sink level creator s.cores.length)

/-- `Logger.AddFileHandler` from src/handlers.go, on the path where the
file opens successfully: identical wiring to the console handler with a
JSON encoder over the opened file.  The file-open failure branch returns
an error before any core is registered and is outside this model (I/O). -/
def addFileHandler (s : Shared) (creator : Nat) (_path : String) (level : LogLevel) : Shared :=
  addCore s (.sink level creator s.cores.length)

/-- `createFieldRedactorCore` from src/redaction.go lines 73-86: collects
the keys into a set and wraps `zapcore.NewNopCore()` in a
`fieldRedactingCore`. -/
def createFieldRedactorCore (keys : List String) : Core :=
  .fieldRedactor keys

/-- The `redactedFields` construction inside `fieldRedactingCore.Write`
(src/redaction.go lines 61-71): every field whose key is in the redact set
and whose value is a string is replaced by the sentinel; all other fields
pass through.  The surrounding `Write` then delegates to the embedded
`NopCore.Write`, which discards its arguments and returns nil. -/
def fieldRedactingWrite (redactKeys : List String) : List Field → List Field
  | [] => []
  | f :: rest =>
    if redactKeys.contains f.key ∧ (match f.value with | .str _ => true | _ => false) = true then
      zapString f.key "***REDACTED***" :: fieldRedactingWrite redactKeys rest
    else
      f :: fieldRedactingWrite redactKeys rest

/-- The Config struct from the repository (src/unnamed/part_002), with Go
maps rendered as association lists. -/
structure Config where
  name : String
  level : LogLevel
  development : Bool
  consoleLevel : Option LogLevel
  fileConfig : List (String × LogLevel)
  redactRegex : List (String × String)
  redactFields : List String

/-- The file-handler registration loop of `NewLoggerWithConfig`. -/
def addFileHandlers (creator : Nat) : Shared → List (String × LogLevel) → Shared
  | s, [] => s
  | s, (path, level) :: rest => addFileHandlers creator (addFileHandler s creator path level) rest

/-- The redaction registration loop of `NewLoggerWithConfig`. -/
def addRedactions : Logger → List (String × String) → Logger
  | l, [] => l
  | l, (pattern, replacement) :: rest => addRedactions (l.addRedaction pattern replacement) rest

/-- `NewLoggerWithConfig` from src/logger.go lines 42-65 on the successful
path: create the logger, register the console handler (if configured) and
the file handlers, register the text redactions, and finally — when
`RedactFields` is non-empty — append the field-redactor core built by
`createFieldRedactorCore`.  The root logger is reference 0. -/
def newLoggerWithConfig (cfg : Config) : Logger × Shared :=
  let (l, s) := newLogger cfg.name cfg.level
  let s := match cfg.consoleLevel with
    | some lvl => addConsoleHandler s 0 lvl cfg.development
    | none => s
  let s := addFileHandlers 0 s cfg.fileConfig
  let l := addRedactions l cfg.redactRegex
  let s := if cfg.redactFields ≠ [] then addCore s (createFieldRedactorCore cfg.redactFields)
    else s
  (l, s)

/-- `zapcore.CheckedEntry`, restricted to what the write path uses: the
entry (here: its message) fixed by the first core that added itself, and
the ordered list of destination cores to write to. -/
structure CheckedEntry where
  message : String
  sinks : List Nat
  deriving DecidableEq, Repr

/-- `zapcore.CheckedEntry.AddCore(ent, core)`: when the accumulator is
still nil a fresh CheckedEntry is created carrying `ent`; otherwise the
existing entry (and hence its message) is kept and only the core list
grows. -/
def ceAddCore : Option CheckedEntry → String → Nat → Option CheckedEntry
  | none, message, sinkId => some ⟨message, [sinkId]⟩
  | some ce, _, sinkId => some { ce with sinks := ce.sinks ++ [sinkId] }

/-- One core's `Check(ent, ce)` step.
* A `sink` is a `redactingCore` (src/handlers.go lines 107-114): it copies
  the entry, overwrites the message with
  `rc.logger.redactMessage(ent.Message)` — the dereference of the live
  `logger` pointer is `rulesOf creator` — and delegates to the wrapped
  ioCore's `Check`, which adds the wrapped core iff its enabler accepts
  the level.
* A `fieldRedactor` embeds `zapcore.NewNopCore()`, and `NopCore.Check`
  returns `ce` unchanged, so the field-redacting core never schedules
  itself for writing. -/
def coreCheck (rulesOf : Nat → List redaction) (c : Core) (lvl : LogLevel) (message : String)
    (ce : Option CheckedEntry) : Option CheckedEntry :=
  match c with
  | .sink threshold creator sinkId =>
    if levelGE lvl threshold then
      ceAddCore ce (redactLoop (rulesOf creator) message) sinkId
    else ce
  | .fieldRedactor _ => ce

/-- `multiCoreSyncWrapper.Check` from src/core.go lines 42-51: `for _,
core := range m.cores { ce = core.Check(ent, ce) }`. -/
def multiCheck (rulesOf : Nat → List redaction) : List Core → LogLevel → String →
    Option CheckedEntry → Option CheckedEntry
  | [], _, _, ce => ce
  | c :: rest, lvl, message, ce =>
    multiCheck rulesOf rest lvl message (coreCheck rulesOf c lvl message ce)

/-- `multiCoreSyncWrapper.Enabled` from src/core.go lines 16-27: iterate
the cores, returning true at the first one whose `Enabled` accepts the
level, false if the loop ends. -/
def multiEnabled : List Core → LogLevel → Bool
  | [], _ => false
  | c :: rest, lvl => if c.enabled lvl then true else multiEnabled rest lvl

/-- The field-assembly block shared by every logging verb (src/logger.go,
e.g. lines 88-107 for Info): `allFields := append([]zap.Field{},
l.context...)`, then `if len(fields) > 0 && fields[0] != nil`, append
`zap.Any(k, v)` for each entry of `fields[0]`.  A Go map value may be nil,
hence the `Option`; maps after the first are never inspected. -/
def assembleFields (context : List Field)
    (fieldMaps : List (Option (List (String × FieldValue)))) : List Field :=
  context ++ (match fieldMaps with
    | some m :: _ => m.map fun p => zapAny p.1 p.2
    | _ => [])

/-- An emitted record as observed by a destination core: severity,
message (as fixed in the CheckedEntry) and the field list handed to
`CheckedEntry.Write`. -/
structure Record where
  level : LogLevel
  message : String
  fields : List Field
  deriving DecidableEq, Repr

/-- The common body of the logging verbs (src/logger.go lines 67-170)
composed with zap's delivery path: redact the message with the calling
logger's own rules, assemble the fields, run `multiCoreSyncWrapper.Check`
over the shared core list, and if a CheckedEntry was produced write the
fixed entry and the assembled fields to each scheduled destination core.
The result lists, in order, each reached destination (`sinkId`) with the
record it receives.  zap's `check` also consults `core.Enabled(lvl)`
first as an optimization; that pre-check returns false exactly when no
core would schedule itself, so it does not change the delivered set. -/
def Logger.logAt (l : Logger) (rulesOf : Nat → List redaction) (cores : List Core)
    (lvl : LogLevel) (msg : String)
    (fieldMaps : List (Option (List (String × FieldValue)))) : List (Nat × Record) :=
  let redactedMsg := l.redactMessage msg
  let allFields := assembleFields l.context fieldMaps
  match multiCheck rulesOf cores lvl redactedMsg none with
  | none => []
  | some ce => ce.sinks.map fun sinkId => (sinkId, ⟨lvl, ce.message, allFields⟩)

/-- `Logger.Debug` from src/logger.go lines 67-86. -/
def Logger.debug (l : Logger) (rulesOf : Nat → List redaction) (cores : List Core)
    (msg : String) (fieldMaps : List (Option (List (String × FieldValue)))) :
    List (Nat × Record) :=
  l.logAt rulesOf cores .debug msg fieldMaps

/-- `Logger.Info` from src/logger.go lines 88-107. -/
def Logger.info (l : Logger) (rulesOf : Nat → List redaction) (cores : List Core)
    (msg : String) (fieldMaps : List (Option (List (String × FieldValue)))) :
    List (Nat × Record) :=
  l.logAt rulesOf cores .info msg fieldMaps

/-- `Logger.Warn` from src/logger.go lines 109-128. -/
def Logger.warn (l : Logger) (rulesOf : Nat → List redaction) (cores : List Core)
    (msg : String) (fieldMaps : List (Option (List (String × FieldValue)))) :
    List (Nat × Record) :=
  l.logAt rulesOf cores .warn msg fieldMaps

/-- `Logger.Error` from src/logger.go lines 130-149. -/
def Logger.error (l : Logger) (rulesOf : Nat → List redaction) (cores : List Core)
    (msg : String) (fieldMaps : List (Option (List (String × FieldValue)))) :
    List (Nat × Record) :=
  l.logAt rulesOf cores .error msg fieldMaps

/-- `Logger.Fatal` from src/logger.go lines 151-170: same record path as
the other verbs; the additional process termination after delivery is an
external effect outside the record model. -/
def Logger.fatal (l : Logger) (rulesOf : Nat → List redaction) (cores : List Core)
    (msg : String) (fieldMaps : List (Option (List (String × FieldValue)))) :
    List (Nat × Record) :=
  l.logAt rulesOf cores .fatal msg fieldMaps

/-- `multiCoreSyncWrapper.Write` from src/core.go lines 53-64: `for _,
core := range m.cores { if err := core.Write(ent, fields); err != nil {
return err } }; return nil`.  Each registered core's `Write` method is
modelled as a function from the record to an optional error string (the
outcome is determined by the destination's I/O). -/
def multiCoreWrite : List (Record → Option String) → Record → Option String
  | [], _ => none
  | w :: ws, rec =>
    match w rec with
    | some err => some err
    | none => multiCoreWrite ws rec

/-- The same loop as `multiCoreWrite`, instrumented to also record the
zero-based positions of the cores whose `Write` was invoked, in
invocation order. -/
def writeTrace : List (Record → Option String) → Record → Option String × List Nat
  | [], _ => (none, [])
  | w :: ws, rec =>
    match w rec with
    | some err => (some err, [0])
    | none =>
      let p := writeTrace ws rec
      (p.1, 0 :: p.2.map (· + 1))

/-- The position and error of the first core whose `Write` fails on the
given record, if any. -/
def firstFail : List (Record → Option String) → Record → Option (Nat × String)
  | [], _ => none
  | w :: ws, rec =>
    match w rec with
    | some err => some (0, err)
    | none => (firstFail ws rec).map fun p => (p.1 + 1, p.2)

/-- The creator reference of the first core in the list that would
schedule itself for the given level (i.e. the first `sink` whose enabler
accepts it); `none` when no core schedules itself. -/
def firstEnabledSink : List Core → LogLevel → Option Nat
  | [], _ => none
  | .sink threshold creator _ :: rest, lvl =>
    if levelGE lvl threshold then some creator else firstEnabledSink rest lvl
  | .fieldRedactor _ :: rest, lvl => firstEnabledSink rest lvl

/-- All delivered records in the list carry the given message. -/
def allMessagesEq (recs : List (Nat × Record)) (m : String) : Bool :=
  recs.all fun r => r.2.message == m

/-- Number of fields in the list bearing the given key. -/
def countKey (fields : List Field) (k : String) : Nat :=
  (fields.filter fun f => f.key == k).length

/-- Modelled from the spec: the sequential left-to-right composition of
the rules — apply r1 to M as a global find-and-replace, feed its output
to r2, and so on through rn, in registration order.  This is the spec's
own description of `RedactText`, stated independently of the source loop
so the two can be compared. -/
def specSequentialRedact (rules : List redaction) (m : String) : String :=
  rules.foldl (fun acc r => applyRedaction r acc) m

/-- All delivered records in the list carry the given field list. -/
def allFieldsEq (recs : List (Nat × Record)) (fs : List Field) : Bool :=
  recs.all fun r => r.2.fields == fs

/-- Helper: every record produced by mapping a fixed entry over the sink
list carries that entry's message. -/
theorem allMessagesEq_map (sinks : List Nat) (lvl : LogLevel) (m : String) (fs : List Field) :
    allMessagesEq (sinks.map fun sinkId => (sinkId, ⟨lvl, m, fs⟩)) m = true := by
  induction sinks with
  | nil => rfl
  | cons s rest ih =>
    simp only [allMessagesEq, List.map_cons, List.all_cons, beq_self_eq_true, Bool.true_and]
    exact ih

/-- Helper: every record produced by mapping a fixed entry over the sink
list carries that entry's field list. -/
theorem allFieldsEq_map (sinks : List Nat) (lvl : LogLevel) (m : String) (fs : List Field) :
    allFieldsEq (sinks.map fun sinkId => (sinkId, ⟨lvl, m, fs⟩)) fs = true := by
  induction sinks with
  | nil => rfl
  | cons s rest ih =>
    simp only [allFieldsEq, List.map_cons, List.all_cons, beq_self_eq_true, Bool.true_and]
    exact ih

/-- Helper: once a CheckedEntry exists, further `Check` steps never change
its message (zapcore's `AddCore` only appends to the core list). -/
theorem multiCheck_some (rulesOf : Nat → List redaction) (cores : List Core) (lvl : LogLevel)
    (msg : String) (ce : CheckedEntry) :
    ∃ sinks, multiCheck rulesOf cores lvl msg (some ce) = some ⟨ce.message, sinks⟩ := by
  induction cores generalizing ce with
  | nil => exact ⟨ce.sinks, rfl⟩
  | cons c rest ih =>
    cases c with
    | sink t cr sid =>
      by_cases h : levelGE lvl t = true
      · have := ih ⟨ce.message, ce.sinks ++ [sid]⟩
        simpa [multiCheck, coreCheck, h, ceAddCore] using this
      · simp only [multiCheck, coreCheck, h, if_neg, Bool.false_eq_true, ite_false]
        exact ih ce
    | fieldRedactor keys =>
      simp only [multiCheck, coreCheck]
      exact ih ce

/-- Helper: starting from a nil CheckedEntry, the message fixed by
`multiCoreSyncWrapper.Check` is the input message redacted with the rules
of the first scheduling sink's creator logger. -/
theorem multiCheck_none_msg (rulesOf : Nat → List redaction) (cores : List Core) (lvl : LogLevel)
    (msg : String) (cr : Nat) (h : firstEnabledSink cores lvl = some cr) :
    ∃ sinks, multiCheck rulesOf cores lvl msg none =
      some ⟨redactLoop (rulesOf cr) msg, sinks⟩ := by
  induction cores with
  | nil => simp [firstEnabledSink] at h
  | cons c rest ih =>
    cases c with
    | sink t cr' sid =>
      by_cases hlv : levelGE lvl t = true
      · have hcr : cr' = cr := by simpa [firstEnabledSink, hlv] using h
        subst hcr
        have := multiCheck_some rulesOf rest lvl msg ⟨redactLoop (rulesOf cr') msg, [sid]⟩
        simpa [multiCheck, coreCheck, hlv, ceAddCore] using this
      · have h' : firstEnabledSink rest lvl = some cr := by
          simpa [firstEnabledSink, hlv] using h
        simpa [multiCheck, coreCheck, hlv] using ih h'
    | fieldRedactor keys =>
      have h' : firstEnabledSink rest lvl = some cr := by
        simpa [firstEnabledSink] using h
      simpa [multiCheck, coreCheck] using ih h'

/-- Helper: every delivered record carries the assembled field list. -/
theorem logAt_fields (l : Logger) (rulesOf : Nat → List redaction) (cores : List Core)
    (lvl : LogLevel) (msg : String)
    (fieldMaps : List (Option (List (String × FieldValue)))) :
    allFieldsEq (l.logAt rulesOf cores lvl msg fieldMaps)
      (assembleFields l.context fieldMaps) = true := by
  cases hce : multiCheck rulesOf cores lvl (l.redactMessage msg) none with
  | none => simp [Logger.logAt, hce, allFieldsEq]
  | some ce =>
    simp only [Logger.logAt, hce]
    exact allFieldsEq_map ce.sinks lvl ce.message (assembleFields l.context fieldMaps)

/-- The lineage state of the C1 scenario: root logger "app" at Info, a
console handler registered at Debug, then `SetLevel(Warn)`. -/
def c1Shared : Shared :=
  setLevel (addConsoleHandler (newLogger "app" LogLevel.info).2 0 .debug true) .warn

/-- The child logger of the C1 scenario, derived before the SetLevel call. -/
def c1Child : Logger :=
  (newLogger "app" LogLevel.info).1.child "auth"

/-- An environment with no redaction rules registered on any logger. -/
def noRules : Nat → List redaction := fun _ => []

/-- C1: the claim says `SetLevel(Warn)` on the root makes a subsequent
`Info` on a previously derived child a no-op.  The code violates this:
`SetLevel` stores into the `zap.AtomicLevel` cell, but that cell is never
wired into `zap.New(coreWrapper)` nor into any sink's enabler, so after
`SetLevel(Warn)` the shared threshold reads Warn, Info is below Warn, and
yet the child's Info record is still delivered to the console sink (whose
own enabler, fixed at Debug when the handler was added, is the only check
consulted). -/
theorem setLevel_not_consulted :
    c1Shared.atomicLevel = LogLevel.warn
    ∧ levelGE .info .warn = false
    ∧ c1Child.info noRules c1Shared.cores "hello" []
        = [(0, ⟨.info, "hello", [⟨"logger", .str "app.auth"⟩]⟩)]
    ∧ c1Child.warn noRules c1Shared.cores "w" []
        = [(0, ⟨.warn, "w", [⟨"logger", .str "app.auth"⟩]⟩)] := by
  decide

/-- The logger of the C2 scenario: root "app" with the single text rule
a → aa (a rule set that is not idempotent). -/
def c2Logger : Logger :=
  (newLogger "app" LogLevel.info).1.addRedaction "a" "aa"

/-- The core list of the C2 scenario: one console sink at Debug installed
by the root logger (reference 0). -/
def c2Cores : List Core :=
  (addConsoleHandler (newLogger "app" LogLevel.info).2 0 .debug true).cores

/-- The C2 scenario's pointer environment: every creator reference
dereferences to the root logger's current rule list. -/
def c2RulesOf : Nat → List redaction := fun _ => c2Logger.redactions

/-- C2, counterexample: with the rule a → aa installed, `Info("a")`
delivers the message "aaaa" to the sink's encoder, whereas one single pass
of the text rules over "a" yields "aa" — the message is redacted a second
time by the sink-side `redactingCore.Check`, so the claim that no
sink-side component applies the text rules again is false. -/
theorem redacted_twice_cex :
    c2Logger.info c2RulesOf c2Cores "a" []
        = [(0, ⟨.info, "aaaa", [⟨"logger", .str "app"⟩]⟩)]
    ∧ redactLoop c2Logger.redactions "a" = "aa"
    ∧ ("aaaa" : String) ≠ "aa" := by
  decide

/-- C2, amended: every logging-verb call passes the message through the
text rules twice before it reaches an encoder — once in the verb
(`l.redactMessage`) and once more in the first scheduling sink's
`redactingCore.Check`, which redacts with the current rules of the logger
that installed that handler. -/
theorem message_redacted_in_verb_and_sink (l : Logger) (rulesOf : Nat → List redaction)
    (cores : List Core) (lvl : LogLevel) (msg : String)
    (fieldMaps : List (Option (List (String × FieldValue)))) (cr : Nat)
    (h : firstEnabledSink cores lvl = some cr) :
    allMessagesEq (l.logAt rulesOf cores lvl msg fieldMaps)
      (redactLoop (rulesOf cr) (redactLoop l.redactions msg)) = true := by
  unfold Logger.logAt
  obtain ⟨sinks, hm⟩ := multiCheck_none_msg rulesOf cores lvl (l.redactMessage msg) cr h
  have hred : l.redactMessage msg = redactLoop l.redactions msg := rfl
  rw [hred] at hm
  simp only [Logger.redactMessage, hm]
  simpa using allMessagesEq_map sinks lvl (redactLoop (rulesOf cr) (redactLoop l.redactions msg))
    (assembleFields l.context fieldMaps)

/-- C2, witness: the amended theorem instantiated at the concrete C2
scenario. -/
theorem message_redacted_in_verb_and_sink_witness :
    firstEnabledSink c2Cores LogLevel.info = some 0
    ∧ allMessagesEq (c2Logger.logAt c2RulesOf c2Cores .info "a" [])
        (redactLoop (c2RulesOf 0) (redactLoop c2Logger.redactions "a")) = true :=
  ⟨by decide,
    message_redacted_in_verb_and_sink c2Logger c2RulesOf c2Cores .info "a" [] 0 (by decide)⟩

/-- The configuration of the C3 scenario: a console sink at Debug and the
field-key redaction set containing "password". -/
def c3Config : Config :=
  ⟨"app", .info, true, some .debug, [], [], ["password"]⟩

/-- The logger built by `NewLoggerWithConfig` for the C3 scenario. -/
def c3Logger : Logger := (newLoggerWithConfig c3Config).1

/-- The shared state built by `NewLoggerWithConfig` for the C3 scenario. -/
def c3Shared : Shared := (newLoggerWithConfig c3Config).2

/-- C3: the claim says every registered sink receives the password field
with value "***REDACTED***".  The code violates this: the field-redacting
core built by `createFieldRedactorCore` wraps `zapcore.NewNopCore()`, whose
`Check` never schedules the core for writing, so the console sink receives
the password field with its raw value "secret123".  The last conjunct
shows that the `redactedFields` loop of `fieldRedactingCore.Write` would
have produced the sentinel had it been wired into the write path. -/
theorem fieldRedaction_bypassed_at_sinks :
    c3Shared.cores = [.sink .debug 0 0, .fieldRedactor ["password"]]
    ∧ c3Logger.info noRules c3Shared.cores "login"
        [some [("password", .str "secret123"), ("user", .str "alice")]]
      = [(0, ⟨.info, "login",
          [⟨"logger", .str "app"⟩, ⟨"password", .str "secret123"⟩, ⟨"user", .str "alice"⟩]⟩)]
    ∧ fieldRedactingWrite ["password"]
        [⟨"password", .str "secret123"⟩, ⟨"user", .str "alice"⟩]
      = [⟨"password", .str "***REDACTED***"⟩, ⟨"user", .str "alice"⟩] := by
  decide

/-- C4: `Logger.redactMessage` equals the sequential left-to-right fold of
the registered rules over the progressively transformed message (the
output of each rule feeds the next), and `AddRedaction` appends at the end
of the registration order. -/
theorem redactMessage_is_sequential_fold (l : Logger) (msg pattern replacement : String) :
    l.redactMessage msg = specSequentialRedact l.redactions msg
    ∧ (l.addRedaction pattern replacement).redactions
        = l.redactions ++ [⟨pattern, replacement⟩] := by
  refine ⟨?_, rfl⟩
  show redactLoop l.redactions msg = specSequentialRedact l.redactions msg
  have h : ∀ (rules : List redaction) (m : String),
      redactLoop rules m = specSequentialRedact rules m := by
    intro rules
    induction rules with
    | nil => intro m; rfl
    | cons r rest ih =>
      intro m
      simpa [redactLoop, specSequentialRedact] using ih (applyRedaction r m)
  exact h l.redactions msg

/-- C5: `multiCoreSyncWrapper.Enabled` is false on an empty core list, and
in general it is true exactly when at least one registered core accepts
the severity. -/
theorem multiEnabled_iff_some_core (cores : List Core) (lvl : LogLevel) :
    multiEnabled [] lvl = false
    ∧ (multiEnabled cores lvl = true ↔ ∃ c ∈ cores, c.enabled lvl = true) := by
  refine ⟨rfl, ?_⟩
  induction cores with
  | nil => simp [multiEnabled]
  | cons c rest ih =>
    by_cases h : c.enabled lvl = true
    · simp [multiEnabled, h]
    · simp only [multiEnabled, h, Bool.false_eq_true, ite_false, ih, List.mem_cons]
      constructor
      · rintro ⟨x, hx, he⟩
        exact ⟨x, Or.inr hx, he⟩
      · rintro ⟨x, hx | hx, he⟩
        · exact absurd (hx ▸ he) h
        · exact ⟨x, hx, he⟩

/-- C6: `multiCoreSyncWrapper.Write` visits the registered cores in order,
stops at the first failing core and returns its error, invoking no core
after it; when no core fails it invokes every core exactly once and
returns nil.  (The trace component lists the zero-based positions whose
`Write` ran, in invocation order.) -/
theorem multiCoreWrite_first_error (ws : List (Record → Option String)) (rec : Record) :
    multiCoreWrite ws rec = (writeTrace ws rec).1
    ∧ writeTrace ws rec = (match firstFail ws rec with
        | some p => (some p.2, List.range (p.1 + 1))
        | none => (none, List.range ws.length)) := by
  induction ws with
  | nil => exact ⟨rfl, rfl⟩
  | cons w rest ih =>
    obtain ⟨ih1, ih2⟩ := ih
    cases hw : w rec with
    | some err =>
      refine ⟨by simp [multiCoreWrite, writeTrace, hw], ?_⟩
      simp [writeTrace, firstFail, hw, List.range_succ]
    | none =>
      refine ⟨by simp [multiCoreWrite, writeTrace, hw, ih1], ?_⟩
      simp only [writeTrace, firstFail, hw, ih2]
      cases hf : firstFail rest rec with
      | some p =>
        simp [hf, List.range_succ_eq_map]
      | none =>
        simp [hf, List.range_succ_eq_map]

/-- C7, counterexample: derive a child from a root with no rules, then add
the rule secret → *** to the root.  The rule is applied when the root
redacts ("***"), but not when the previously derived child redacts
("secret" passes through unchanged): `Child` copied the rule slice into a
fresh backing array (`append([]redaction{}, l.redactions...)`), so the
claimed by-reference sharing of the redaction state does not hold. -/
theorem child_misses_later_parent_rule_cex :
    ((newLogger "app" LogLevel.info).1.child "auth").redactMessage "secret" = "secret"
    ∧ ((newLogger "app" LogLevel.info).1.addRedaction "secret" "***").redactMessage "secret"
        = "***"
    ∧ ("secret" : String) ≠ "***" := by
  decide

/-- C7, amended: `Child` and `WithContext` take a snapshot copy of the
parent's redaction rule list at derivation time; a rule added to the
parent afterwards extends only the parent's own list and is not applied
when the derived logger redacts a subsequent message. -/
theorem derived_logger_rules_snapshot (l : Logger) (n : String)
    (fields : List (String × FieldValue)) (pattern replacement msg : String) :
    (l.child n).redactions = l.redactions
    ∧ (l.withContext fields).redactions = l.redactions
    ∧ (l.addRedaction pattern replacement).redactions = l.redactions ++ [⟨pattern, replacement⟩]
    ∧ (l.child n).redactMessage msg = redactLoop l.redactions msg :=
  ⟨rfl, rfl, rfl, rfl⟩

/-- C8, counterexample: a logger with context field user = "bob" receives
a call-supplied field user = "alice"; the assembled record contains TWO
fields with key "user" (the context one first, the call-supplied one
appended after), not exactly one as the claim states. -/
theorem duplicate_key_not_merged_cex :
    assembleFields ((newLogger "app" LogLevel.info).1.withContext [("user", .str "bob")]).context
        [some [("user", .str "alice")]]
      = [⟨"logger", .str "app"⟩, ⟨"user", .str "bob"⟩, ⟨"user", .str "alice"⟩]
    ∧ countKey (assembleFields
        ((newLogger "app" LogLevel.info).1.withContext [("user", .str "bob")]).context
        [some [("user", .str "alice")]]) "user" = 2 := by
  decide

/-- C8, amended: the emitted field list is the persistent context fields
followed by the call-supplied fields with no deduplication; a key present
in both contributes one field from each side, the call-supplied one last
in encounter order. -/
theorem fields_concatenated_no_dedup (ctx : List Field) (m : List (String × FieldValue))
    (rest : List (Option (List (String × FieldValue)))) (k : String) :
    assembleFields ctx (some m :: rest) = ctx ++ m.map (fun p => zapAny p.1 p.2)
    ∧ countKey (assembleFields ctx (some m :: rest)) k
        = countKey ctx k + countKey (m.map fun p => zapAny p.1 p.2) k := by
  refine ⟨rfl, ?_⟩
  simp [assembleFields, countKey, List.filter_append]

/-- C9: for a root logger created by `NewLogger`, `Child(c)` produces the
dot-joined hierarchical name (or just `c` when the root is unnamed), its
context is exactly one "logger" field holding that name, and every record
a subsequent Info call on the child delivers carries exactly that field
list (the caller supplying no field map). -/
theorem child_name_and_single_logger_field (n c : String) (lvl : LogLevel)
    (rulesOf : Nat → List redaction) (cores : List Core) (msg : String) :
    ((newLogger n lvl).1.child c).name = (if n ≠ "" then n ++ "." ++ c else c)
    ∧ ((newLogger n lvl).1.child c).context
        = [⟨"logger", .str (((newLogger n lvl).1.child c).name)⟩]
    ∧ countKey ((newLogger n lvl).1.child c).context "logger" = 1
    ∧ allFieldsEq (((newLogger n lvl).1.child c).info rulesOf cores msg [])
        (((newLogger n lvl).1.child c).context) = true := by
  refine ⟨rfl, ?_, ?_, ?_⟩
  · simp [newLogger, Logger.child, replaceLoggerField, zapString]
  · simp [newLogger, Logger.child, replaceLoggerField, zapString, countKey]
  · have h := logAt_fields ((newLogger n lvl).1.child c) rulesOf cores .info msg []
    simpa [assembleFields] using h

/-- C10: every logging verb incorporates only the first supplied field
map; any further maps contribute nothing to the emitted record (the body
only inspects `fields[0]`). -/
theorem extra_field_maps_ignored (l : Logger) (rulesOf : Nat → List redaction)
    (cores : List Core) (lvl : LogLevel) (msg : String)
    (m : Option (List (String × FieldValue)))
    (rest : List (Option (List (String × FieldValue)))) :
    l.logAt rulesOf cores lvl msg (m :: rest) = l.logAt rulesOf cores lvl msg [m] := by
  cases m <;> rfl

end ZapLogger
